import Mathlib

/-!
Shallow embedding of `src/version.py` (a SCons build hook of the pyxis repository).

The script (after its two module-level imports, SCons `Import("env")` and the
`subprocess` module) is:

  try:
      version = subprocess.check_output(
          ["git", "describe", "--tags", "--always"],
          stderr=subprocess.DEVNULL
      ).decode().strip().lstrip("v")
  except Exception:
      version = "dev"
  env.Append(CPPDEFINES=[("FIRMWARE_VERSION", env.StringifyMacro(version))])

Embedding choices:
* Python strings are modelled as `List Char`.
* The outcome of `subprocess.check_output(...).decode()` is modelled as
  `Except String (List Char)`: `Except.ok s` means the external command and the
  decoding both succeeded and produced the string `s`; `Except.error msg` means
  some step inside the `try` block raised an exception (command absent,
  non-zero exit status, decode error, ...), `msg` standing for the exception.
* `str.strip()` is `pyStrip` (drop whitespace from the front, then from the
  back), `str.lstrip("v")` is `pyLstripV` (drop every leading `'v'`), and
  `.decode()` is the identity at the boundary of the model (its failure is an
  `Except.error`).
* The SCons environment is modelled by the one field the script touches:
  its `CPPDEFINES` list.  `env.StringifyMacro` is an external SCons method,
  so `runScript` takes it as an abstract function argument.
-/

namespace Pyxis

/-- The characters treated as whitespace by Python `str.strip()`
(the ASCII whitespace characters). -/
def pyIsSpace (c : Char) : Bool :=
  c = ' ' || c = '\t' || c = '\n' || c = '\r' || c = '\x0b' || c = '\x0c'

/-- Python `str.strip()`: remove leading whitespace, then trailing
whitespace (the trailing side via `reverse`). -/
def pyStrip (l : List Char) : List Char :=
  ((l.dropWhile pyIsSpace).reverse.dropWhile pyIsSpace).reverse

/-- Python `str.lstrip("v")`: remove every leading `'v'` character. -/
def pyLstripV (l : List Char) : List Char :=
  l.dropWhile (fun c => c = 'v')

/-- The normalization pipeline applied to the decoded command output on the
success branch: `.strip().lstrip("v")` (line 8 of `src/version.py`). -/
def normalize (l : List Char) : List Char :=
  pyLstripV (pyStrip l)

/-- The value bound to `version` by the `try`/`except` statement of
`src/version.py` (lines 4-10), as a function of the outcome of the query
`subprocess.check_output(["git", "describe", "--tags", "--always"]).decode()`. -/
def version : Except String (List Char) → List Char
  | Except.ok out => normalize out
  | Except.error _ => "dev".data

/-- Python `try dst = body except Exception: dst = fb`, for a body that is a
pure computation which may raise: the result is always an `Except.ok`; the
error type of the result is `Empty`, i.e. no exception escapes. -/
def pyTryExceptAll (body : Except String (List Char)) (fb : List Char) :
    Except Empty (List Char) :=
  match body with
  | Except.ok v => Except.ok v
  | Except.error _ => Except.ok fb

/-- The whole `try`/`except` statement of `src/version.py` seen as an
exception-producing computation: the body maps a successful query output
through `normalize`, and the handler substitutes `"dev"`. -/
def scriptVersionRun (q : Except String (List Char)) : Except Empty (List Char) :=
  pyTryExceptAll (q.map normalize) ("dev".data)

/-- The one field of the SCons construction environment the script reads or
writes: the `CPPDEFINES` list of (name, value) preprocessor definitions. -/
structure SConsEnv where
  cppdefines : List (List Char × List Char)

/-- Model of `env.Append(CPPDEFINES=[d])`: appends the single entry `d` to the end of
the `CPPDEFINES` list, leaving every existing entry in place. -/
def envAppendDefine (e : SConsEnv) (d : List Char × List Char) : SConsEnv :=
  ⟨e.cppdefines ++ [d]⟩

/-- Line 12 of `src/version.py`:
`env.Append(CPPDEFINES=[("FIRMWARE_VERSION", env.StringifyMacro(version))])`.
`stringify` stands for the external SCons method `env.StringifyMacro`. -/
def runScript (stringify : List Char → List Char) (e : SConsEnv)
    (q : Except String (List Char)) : SConsEnv :=
  envAppendDefine e ("FIRMWARE_VERSION".data, stringify (version q))

/-- Second formulation of the normalization, following the claim wording of
C6 step by step: strip surrounding whitespace (here: trailing side first,
via explicit recursion), then strip the leading run of `'v'` characters.
Used to check that `version` refines that description. -/
def trimLead : List Char → List Char
  | [] => []
  | c :: r => if pyIsSpace c then trimLead r else c :: r

/-- Remove trailing whitespace (spec-side formulation). -/
def trimTrail (l : List Char) : List Char :=
  (trimLead l.reverse).reverse

/-- Spec-side normalization: whitespace-strip (trailing first, then leading),
then drop the leading `'v'` run. -/
def specNormalize (l : List Char) : List Char :=
  (trimLead (trimTrail l)).dropWhile (fun c => c = 'v')

/-- Lowercase hexadecimal digits, the alphabet of a git abbreviated
commit hash (the `--always` fallback output of `git describe`). -/
def isHexLower (c : Char) : Bool :=
  c.isDigit || ('a' ≤ c && c ≤ 'f')

/-! ### Generic lemmas about `dropWhile` -/

/-- The head of a `dropWhile` result does not satisfy the dropped predicate. -/
theorem dropWhile_head_false (p : Char → Bool) (l : List Char) :
    ∀ c r, l.dropWhile p = c :: r → p c = false := by
  induction l with
  | nil => intro c r h; simp [List.dropWhile] at h
  | cons a t ih =>
    intro c r h
    by_cases hp : p a
    · rw [List.dropWhile_cons] at h
      simp [hp] at h
      exact ih c r h
    · rw [List.dropWhile_cons] at h
      simp [hp] at h
      rcases h with ⟨hc, _⟩
      rw [← hc]
      simp [hp]

/-- Lemma: `dropWhile` over an append, split by whether the first part vanishes. -/
theorem dropWhile_append_eq (p : Char → Bool) (l₁ l₂ : List Char) :
    (l₁ ++ l₂).dropWhile p =
      if l₁.dropWhile p = [] then l₂.dropWhile p else l₁.dropWhile p ++ l₂ := by
  induction l₁ with
  | nil => simp
  | cons a t ih =>
    by_cases hp : p a
    · simpa [List.dropWhile_cons, hp] using ih
    · simp [List.dropWhile_cons, hp]

/-- Lemma: `dropWhile` is the identity when the head (if any) fails the predicate. -/
theorem dropWhile_eq_self_of_head (p : Char → Bool) (l : List Char)
    (h : ∀ c r, l = c :: r → p c = false) : l.dropWhile p = l := by
  cases l with
  | nil => rfl
  | cons a t =>
    have := h a t rfl
    simp [List.dropWhile_cons, this]

/-- Stripping leading whitespace and stripping trailing whitespace commute. -/
theorem strip_comm (l : List Char) :
    ((l.dropWhile pyIsSpace).reverse.dropWhile pyIsSpace).reverse =
      (l.reverse.dropWhile pyIsSpace).reverse.dropWhile pyIsSpace := by
  induction l with
  | nil => rfl
  | cons a t ih =>
    by_cases hp : pyIsSpace a
    · by_cases hd : t.reverse.dropWhile pyIsSpace = []
      · simp [List.dropWhile_cons, hp, dropWhile_append_eq, hd] at ih ⊢
        exact ih
      · simp only [List.dropWhile_cons, hp, if_true, List.reverse_cons,
          dropWhile_append_eq, hd, if_neg hd, List.reverse_append,
          List.reverse_cons, List.reverse_nil, List.nil_append]
        simpa [List.dropWhile_cons, hp] using ih
    · by_cases hd : t.reverse.dropWhile pyIsSpace = []
      · simp [List.dropWhile_cons, hp, List.reverse_cons, dropWhile_append_eq, hd]
      · simp [List.dropWhile_cons, hp, List.reverse_cons, dropWhile_append_eq, hd,
          List.reverse_append]

/-- Lemma: `trimLead` is `dropWhile pyIsSpace`. -/
theorem trimLead_eq (l : List Char) : trimLead l = l.dropWhile pyIsSpace := by
  induction l with
  | nil => rfl
  | cons a t ih =>
    by_cases hp : pyIsSpace a <;> simp [trimLead, List.dropWhile_cons, hp, ih]

/-! ### Facts about `normalize` and `version` -/

/-- The first character of a normalized string is never `'v'`. -/
theorem normalize_head_ne_v (s : List Char) :
    ∀ c r, normalize s = c :: r → c ≠ 'v' := by
  intro c r h
  have := dropWhile_head_false (fun c => c = 'v') (pyStrip s) c r h
  simpa using this

/-- The last character of a normalized string is never whitespace
(stated via `reverse`). -/
theorem normalize_reverse_head (s : List Char) :
    ∀ c r, (normalize s).reverse = c :: r → pyIsSpace c = false := by
  intro c r h
  have hsplit :
      (pyStrip s).takeWhile (fun c => c = 'v') ++ normalize s = pyStrip s :=
    List.takeWhile_append_dropWhile _ _
  have hrev : (pyStrip s).reverse =
      c :: (r ++ ((pyStrip s).takeWhile (fun c => c = 'v')).reverse) := by
    conv_lhs => rw [← hsplit]
    rw [List.reverse_append, h]
    simp
  have hstrip : (pyStrip s).reverse =
      ((s.dropWhile pyIsSpace).reverse).dropWhile pyIsSpace := by
    simp [pyStrip]
  rw [hstrip] at hrev
  exact dropWhile_head_false pyIsSpace _ c _ hrev

/-! ### Facts about hexadecimal characters -/

/-- A lowercase hexadecimal character is not whitespace. -/
theorem hex_char_not_space (c : Char) (hc : isHexLower c = true) :
    pyIsSpace c = false := by
  cases hb : pyIsSpace c
  · rfl
  · exfalso
    have hb2 : c = ' ' ∨ c = '\t' ∨ c = '\n' ∨ c = '\x0d' ∨ c = '\x0b' ∨ c = '\x0c' := by
      simpa [pyIsSpace, or_assoc] using hb
    rcases hb2 with h | h | h | h | h | h <;> rw [h] at hc <;>
      exact absurd hc (by decide)

/-- A lowercase hexadecimal character is not the letter v. -/
theorem hex_char_ne_v (c : Char) (hc : isHexLower c = true) :
    (c = 'v') = False := by
  by_cases h : c = 'v'
  · rw [h] at hc
    exact absurd hc (by decide)
  · simp [h]

/-! ### The claims -/

/-- C1, counterexample: `str.lstrip("v")` removes every leading `v`, not just
the first one.  On the output `"vv1.0"` the script produces `"1.0"`, while the
claim as stated requires `"v1.0"` (all but the first `v` kept). -/
theorem c1_claim_false :
    version (Except.ok ("vv1.0".data)) = "1.0".data ∧
      "1.0".data ≠ "v1.0".data := by
  constructor
  · decide
  · decide

/-- C1, amended: when the query succeeds and its decoded, whitespace-stripped
output is the tag `t`, the produced version string is `t` with ALL leading
`v` characters removed. -/
theorem c1_all_leading_v_removed (o t : List Char) (h : pyStrip o = t) :
    version (Except.ok o) = t.dropWhile (fun c => c = 'v') := by
  show normalize o = _
  rw [normalize, pyLstripV, h]

/-- Witness for C1 at the tag `"vv1.0"` (with the trailing newline the
command emits): the produced string drops both leading `v` characters. -/
theorem c1_witness :
    version (Except.ok "vv1.0\n".data) =
      "vv1.0".data.dropWhile (fun c => c = 'v') :=
  c1_all_leading_v_removed "vv1.0\n".data "vv1.0".data (by decide)

/-- C2, counterexample: on the (successful) output `"v"` the script produces
the empty string, so the produced version string is not always non-empty. -/
theorem c2_claim_false : version (Except.ok ['v']) = [] := by decide

/-- C2, amended: the produced string is non-empty on the fallback branch, and
on the success branch it is empty exactly when every character of the
whitespace-stripped output is `v`. -/
theorem c2_empty_iff (e : String) (o : List Char) :
    version (Except.error e) ≠ [] ∧
      (version (Except.ok o) = [] ↔ ∀ c ∈ pyStrip o, c = 'v') := by
  constructor
  · intro h
    have h2 : ("dev".data : List Char) = [] := h
    exact absurd h2 (by decide)
  · show normalize o = [] ↔ _
    rw [normalize, pyLstripV, List.dropWhile_eq_nil_iff]
    constructor
    · intro h c hc
      simpa using h c hc
    · intro h c hc
      simpa using h c hc

/-- Witness for C2: on a failed query the produced string is non-empty. -/
theorem c2_witness : version (Except.error "git: not found") ≠ [] :=
  (c2_empty_iff "git: not found" []).1

/-- C3: whenever the query raises (any exception message `e`), the produced
version string is exactly the sentinel `"dev"`. -/
theorem c3_fallback_dev (e : String) : version (Except.error e) = "dev".data :=
  rfl

/-- C4: the whole `try`/`except` statement never lets an exception escape:
viewed as an exception-producing computation its result is always
`Except.ok` of the value `version` describes, for every query outcome. -/
theorem c4_no_exception_escapes (q : Except String (List Char)) :
    scriptVersionRun q = Except.ok (version q) := by
  cases q with
  | ok o => rfl
  | error e => rfl

/-- C5: the produced version string never starts with the character `v`,
on the success branch (all leading `v` removed) and on the fallback branch
(`"dev"` starts with `d`) alike. -/
theorem c5_no_leading_v (q : Except String (List Char)) :
    ∀ c r, version q = c :: r → c ≠ 'v' := by
  cases q with
  | ok o => exact normalize_head_ne_v o
  | error e =>
    intro c r h
    have h2 : ("dev".data : List Char) = c :: r := h
    rw [show ("dev".data : List Char) = 'd' :: 'e' :: 'v' :: [] from by decide] at h2
    injection h2 with h1 _
    rw [← h1]
    decide

/-- Witness for C5 on the fallback branch: the first character of `"dev"`
is not `v`. -/
theorem c5_witness : 'd' ≠ 'v' :=
  c5_no_leading_v (Except.error "fail") 'd' ('e' :: 'v' :: []) (by decide)

/-- C6: on every successful query the produced string equals the spec-side
normalization (strip surrounding whitespace, then drop the leading run of
`v` characters) of the decoded output: the two strip orders agree and no
other transformation is applied. -/
theorem c6_normalization_steps (o : List Char) :
    version (Except.ok o) = specNormalize o := by
  show normalize o = specNormalize o
  rw [normalize, pyLstripV, specNormalize, trimTrail, trimLead_eq, trimLead_eq,
    pyStrip, strip_comm]

/-- C7: when the repository has no tags and `git describe --tags --always`
succeeds with an abbreviated commit hash (a non-empty string of lowercase
hexadecimal characters, plus the trailing newline), the produced string is
that hash unchanged, and it is not the sentinel `"dev"`. -/
theorem c7_hash_kept (h : List Char) (hne : h ≠ [])
    (hhex : ∀ c ∈ h, isHexLower c = true) :
    version (Except.ok (h ++ ['\n'])) = h ∧ h ≠ "dev".data := by
  obtain ⟨c₀, t, rfl⟩ : ∃ c₀ t, h = c₀ :: t := by
    cases h with
    | nil => exact absurd rfl hne
    | cons a b => exact ⟨a, b, rfl⟩
  have hnotspace : ∀ c ∈ (c₀ :: t), pyIsSpace c = false := fun c hc =>
    hex_char_not_space c (hhex c hc)
  have h₁ : ((c₀ :: t) ++ ['\n']).dropWhile pyIsSpace = (c₀ :: t) ++ ['\n'] := by
    apply dropWhile_eq_self_of_head
    intro c r hc
    rw [List.cons_append] at hc
    injection hc with hc1 _
    rw [← hc1]
    exact hnotspace c₀ (List.mem_cons_self _ _)
  have h₂ : (((c₀ :: t) ++ ['\n']) : List Char).reverse = '\n' :: (c₀ :: t).reverse := by
    rw [List.reverse_append]
    rfl
  have h₃ : ('\n' :: (c₀ :: t).reverse).dropWhile pyIsSpace = (c₀ :: t).reverse := by
    rw [List.dropWhile_cons]
    simp only [show pyIsSpace '\n' = true from rfl, if_true]
    apply dropWhile_eq_self_of_head
    intro c r hc
    apply hnotspace
    have hmem : c ∈ (c₀ :: t).reverse := by
      rw [hc]
      exact List.mem_cons_self _ _
    exact List.mem_reverse.mp hmem
  have hstrip : pyStrip ((c₀ :: t) ++ ['\n']) = c₀ :: t := by
    rw [pyStrip, h₁, h₂, h₃, List.reverse_reverse]
  have hlv : pyLstripV (c₀ :: t) = c₀ :: t := by
    apply dropWhile_eq_self_of_head
    intro c r hc
    injection hc with hc1 _
    rw [← hc1]
    simp [hex_char_ne_v c₀ (hhex c₀ (List.mem_cons_self _ _))]
  constructor
  · show normalize _ = _
    rw [normalize, hstrip, hlv]
  · intro hdev
    have hv : 'v' ∈ (c₀ :: t) := by
      rw [hdev]
      decide
    exact absurd (hhex 'v' hv) (by decide)

/-- Witness for C7 at the hash `"a1b2c"`. -/
theorem c7_witness :
    version (Except.ok ("a1b2c".data ++ ['\n'])) = "a1b2c".data ∧
      "a1b2c".data ≠ "dev".data :=
  c7_hash_kept "a1b2c".data (by decide) (by decide)

/-- C8: running the script extends the `CPPDEFINES` list of the environment
by exactly the one entry `("FIRMWARE_VERSION", stringify (version q))`,
keeping every existing entry, whatever the query outcome `q` was. -/
theorem c8_appends_one_define (f : List Char → List Char) (e : SConsEnv)
    (q : Except String (List Char)) :
    (runScript f e q).cppdefines =
      e.cppdefines ++ [("FIRMWARE_VERSION".data, f (version q))] :=
  rfl

/-- C9, counterexample: on the output `"v 1.0"` the produced string is
`" 1.0"`, which begins with a whitespace character: stripping the leading
`v` run can expose interior whitespace. -/
theorem c9_claim_false :
    (version (Except.ok "v 1.0".data)).head? = some ' ' ∧
      pyIsSpace ' ' = true := by
  constructor
  · decide
  · decide

/-- C9, amended: the produced version string never ENDS with whitespace (in
particular the trailing newline of the command output is gone), on both
branches; leading whitespace, though, can survive (see the counterexample). -/
theorem c9_no_trailing_space (q : Except String (List Char)) :
    ∀ c r, (version q).reverse = c :: r → pyIsSpace c = false := by
  cases q with
  | ok o => exact normalize_reverse_head o
  | error e =>
    intro c r h
    have h2 : ("dev".data : List Char).reverse = c :: r := h
    rw [show ("dev".data : List Char).reverse = 'v' :: 'e' :: 'd' :: [] from by decide] at h2
    injection h2 with h1 _
    rw [← h1]
    decide

/-- Witness for C9 on the fallback branch: the last character of `"dev"`
is not whitespace. -/
theorem c9_witness : pyIsSpace 'v' = false :=
  c9_no_trailing_space (Except.error "boom") 'v' ('e' :: 'd' :: []) (by decide)

/-- C10, counterexample: the normalization is not idempotent: on `"v 1.0"`
one pass gives `" 1.0"` and a second pass gives `"1.0"`. -/
theorem c10_claim_false :
    normalize (normalize "v 1.0".data) ≠ normalize "v 1.0".data := by decide

/-- C10, amended: the normalization is idempotent on every string whose
normalized form does not begin with whitespace (in particular whenever the
stripped output has no whitespace right after its leading `v` run). -/
theorem c10_conditional_idem (s : List Char)
    (h : ∀ c r, normalize s = c :: r → pyIsSpace c = false) :
    normalize (normalize s) = normalize s := by
  have h₁ : (normalize s).dropWhile pyIsSpace = normalize s :=
    dropWhile_eq_self_of_head _ _ h
  have h₂ : ((normalize s).reverse).dropWhile pyIsSpace = (normalize s).reverse :=
    dropWhile_eq_self_of_head _ _ (fun c r hc => normalize_reverse_head s c r hc)
  have h₃ : pyStrip (normalize s) = normalize s := by
    rw [pyStrip, h₁, h₂, List.reverse_reverse]
  have h₄ : pyLstripV (normalize s) = normalize s := by
    apply dropWhile_eq_self_of_head
    intro c r hc
    have := normalize_head_ne_v s c r hc
    simpa using this
  show normalize (normalize s) = normalize s
  rw [normalize, h₃, h₄]

/-- Witness for C10 at `"v1.0"`: its normalized form `"1.0"` starts with a
digit, so a second normalization changes nothing. -/
theorem c10_witness :
    normalize (normalize "v1.0".data) = normalize "v1.0".data := by
  apply c10_conditional_idem
  intro c r hc
  rw [show normalize "v1.0".data = '1' :: '.' :: '0' :: [] from by decide] at hc
  injection hc with h1 _
  rw [← h1]
  decide

end Pyxis
